import Mathlib

/-!
Shallow embedding of `src/stock_indicator_monitor.py`.

Prices are modelled as rationals (ℚ).  A float that may be NaN is modelled
as `Option ℚ` (`none` = NaN/undefined).  The intermediate RS quotient, which
in the source is an IEEE float division that can produce +∞ (positive/0) or
NaN (0/0), is modelled by `FVal`.  In this program the numerator and
denominator of that division (rolling averages of gains and losses) are
always nonnegative, so the negative-infinity cases of IEEE division cannot
arise and are not modelled.
-/

namespace StockIndicator

/-- Smoothing factor α = 2/(span+1) used by `close_prices.ewm(span=span)`. -/
def ewmAlpha (span : ℕ) : ℚ := 2 / (span + 1)

/-- Pandas `Series.ewm(span).mean()` with its defaults (`adjust=True`,
`min_periods=0`): each output is the quotient of the running weighted sum
`num[i] = x[i] + (1-α)·num[i-1]` by the running weight sum
`den[i] = 1 + (1-α)·den[i-1]`. -/
def ewmAux (a : ℚ) (num den : ℚ) : List ℚ → List ℚ
  | [] => []
  | x :: xs =>
    let n := x + (1 - a) * num
    let d := 1 + (1 - a) * den
    n / d :: ewmAux a n d xs

def ewmMean (span : ℕ) (xs : List ℚ) : List ℚ := ewmAux (ewmAlpha span) 0 0 xs

/-- Embedding of `calculate_macd(data, fast, slow, signal)` on the Close column. -/
def calculate_macd (close : List ℚ) (fast slow sigp : ℕ) :
    List ℚ × List ℚ × List ℚ :=
  let ema_fast := ewmMean fast close
  let ema_slow := ewmMean slow close
  let macd_line := List.zipWith (· - ·) ema_fast ema_slow
  let signal_line := ewmMean sigp macd_line
  let histogram := List.zipWith (· - ·) macd_line signal_line
  (macd_line, signal_line, histogram)

/-- Embedding of `close_prices.diff()`: NaN at index 0, differences after. -/
def diffList (xs : List ℚ) : List (Option ℚ) :=
  match xs with
  | [] => []
  | _ :: t => none :: List.zipWith (fun prev cur => some (cur - prev)) xs t

/-- Gain step `price_diff.where(price_diff > 0, 0)`: a NaN entry compares
False and is replaced by 0. -/
def gainOf (d : Option ℚ) : ℚ :=
  match d with
  | none => 0
  | some d => if 0 < d then d else 0

/-- Loss step `-price_diff.where(price_diff < 0, 0)`. -/
def lossOf (d : Option ℚ) : ℚ :=
  match d with
  | none => 0
  | some d => if d < 0 then -d else 0

/-- Pandas `Series.rolling(window=w).mean()` with default `min_periods = w` on a
series without NaN entries: defined from index `w-1` on. -/
def rollingMean (w : ℕ) (xs : List ℚ) : List (Option ℚ) :=
  (List.range xs.length).map (fun i =>
    if w ≤ i + 1 then some ((((xs.take (i + 1)).drop (i + 1 - w)).sum) / w)
    else none)

/-- Value of the float quotient `avg_gain / avg_loss`: finite, +∞ or NaN. -/
inductive FVal where
  | nan : FVal
  | pinf : FVal
  | fin : ℚ → FVal
deriving DecidableEq

/-- IEEE division `avg_gain / avg_loss` restricted to the nonnegative
operands occurring in this program: NaN operands or 0/0 give NaN, and a
positive numerator over 0 gives +∞. -/
def fdiv (g l : Option ℚ) : FVal :=
  match g, l with
  | some g, some l => if l = 0 then (if g = 0 then FVal.nan else FVal.pinf) else FVal.fin (g / l)
  | _, _ => FVal.nan

/-- Final step `100 - (100 / (1 + rs))`: a NaN RS stays NaN, an infinite RS gives 100
(100/(1+∞) = 0); the finite RS values of this program are nonnegative, so
`1 + r` is never 0. -/
def rsiOfRs (v : FVal) : Option ℚ :=
  match v with
  | FVal.nan => none
  | FVal.pinf => some 100
  | FVal.fin r => some (100 - 100 / (1 + r))

/-- The series `avg_gain = gain.rolling(window=period).mean()`. -/
def avgGainSeries (period : ℕ) (close : List ℚ) : List (Option ℚ) :=
  rollingMean period ((diffList close).map gainOf)

/-- The series `avg_loss = loss.rolling(window=period).mean()`. -/
def avgLossSeries (period : ℕ) (close : List ℚ) : List (Option ℚ) :=
  rollingMean period ((diffList close).map lossOf)

/-- Embedding of `calculate_rsi(data, period)` on the Close column. -/
def calculate_rsi (period : ℕ) (close : List ℚ) : List (Option ℚ) :=
  (List.zipWith fdiv (avgGainSeries period close) (avgLossSeries period close)).map rsiOfRs

/-- Float comparison `a <= b`; any NaN operand compares False. -/
def ole (a b : Option ℚ) : Bool :=
  match a, b with
  | some x, some y => decide (x ≤ y)
  | _, _ => false

/-- Float comparison `a < b`; any NaN operand compares False. -/
def olt (a b : Option ℚ) : Bool :=
  match a, b with
  | some x, some y => decide (x < y)
  | _, _ => false

/-- Condition `macd_line.iloc[i-1] <= signal_line.iloc[i-1] and macd_line.iloc[i] > signal_line.iloc[i]`. -/
def macdBuyAt (m s : List (Option ℚ)) (i : ℕ) : Bool :=
  ole (m.getD (i - 1) none) (s.getD (i - 1) none) && olt (s.getD i none) (m.getD i none)

/-- Condition `macd_line.iloc[i-1] >= signal_line.iloc[i-1] and macd_line.iloc[i] < signal_line.iloc[i]`. -/
def macdSellAt (m s : List (Option ℚ)) (i : ℕ) : Bool :=
  ole (s.getD (i - 1) none) (m.getD (i - 1) none) && olt (m.getD i none) (s.getD i none)

/-- Embedding of `detect_macd_signals`: loop `for i in range(1, len(macd_line))`, `elif`
for the sell branch. -/
def detect_macd_signals (m s : List (Option ℚ)) : List ℕ × List ℕ :=
  ((List.range m.length).filter (fun i => decide (1 ≤ i) && macdBuyAt m s i),
   (List.range m.length).filter
     (fun i => decide (1 ≤ i) && !macdBuyAt m s i && macdSellAt m s i))

/-- Guard `pd.notna(..) and pd.notna(..)`, then condition
`rsi_data.iloc[i-1] <= 30 and rsi_data.iloc[i] > 30`. -/
def rsiBuyAt (r : List (Option ℚ)) (i : ℕ) : Bool :=
  match r.getD (i - 1) none, r.getD i none with
  | some p, some c => decide (p ≤ 30) && decide (30 < c)
  | _, _ => false

/-- Guarded `rsi_data.iloc[i-1] >= 70 and rsi_data.iloc[i] < 70`. -/
def rsiSellAt (r : List (Option ℚ)) (i : ℕ) : Bool :=
  match r.getD (i - 1) none, r.getD i none with
  | some p, some c => decide (70 ≤ p) && decide (c < 70)
  | _, _ => false

/-- Embedding of `detect_rsi_signals`: loop `for i in range(1, len(rsi_data))`, `elif`
for the sell branch. -/
def detect_rsi_signals (r : List (Option ℚ)) : List ℕ × List ℕ :=
  ((List.range r.length).filter (fun i => decide (1 ≤ i) && rsiBuyAt r i),
   (List.range r.length).filter
     (fun i => decide (1 ≤ i) && !rsiBuyAt r i && rsiSellAt r i))

/-- The combined-signal loops of `analyze_stock_indicators` (one per kind):
for each MACD event date, every same-kind RSI event date within `tol`
calendar days appends the MACD date.  Dates are day numbers; the source
hard-codes `tol = 2`. -/
def combineSignals (macdDates rsiDates : List ℤ) (tol : ℤ) : List ℤ :=
  macdDates.flatMap (fun d =>
    (rsiDates.filter (fun r => decide (|d - r| ≤ tol))).map (fun _ => d))

/-! ### Length and indexing lemmas -/

lemma length_ewmAux (a : ℚ) (num den : ℚ) (xs : List ℚ) :
    (ewmAux a num den xs).length = xs.length := by
  induction xs generalizing num den with
  | nil => rfl
  | cons x t ih => simp [ewmAux, ih]

lemma length_ewmMean (span : ℕ) (xs : List ℚ) : (ewmMean span xs).length = xs.length :=
  length_ewmAux _ _ _ _

lemma length_diffList (xs : List ℚ) : (diffList xs).length = xs.length := by
  cases xs with
  | nil => rfl
  | cons x t => simp [diffList]

lemma length_rollingMean (w : ℕ) (xs : List ℚ) : (rollingMean w xs).length = xs.length := by
  simp [rollingMean]

lemma length_avgGainSeries (p : ℕ) (close : List ℚ) :
    (avgGainSeries p close).length = close.length := by
  simp [avgGainSeries, length_rollingMean, length_diffList]

lemma length_avgLossSeries (p : ℕ) (close : List ℚ) :
    (avgLossSeries p close).length = close.length := by
  simp [avgLossSeries, length_rollingMean, length_diffList]

lemma length_calculate_rsi (p : ℕ) (close : List ℚ) :
    (calculate_rsi p close).length = close.length := by
  simp [calculate_rsi, List.length_zipWith, length_avgGainSeries, length_avgLossSeries]

lemma getD_of_length_le {α : Type} (l : List α) (d : α) (i : ℕ) (h : l.length ≤ i) :
    l.getD i d = d := by
  simp [List.getD_eq_getElem?_getD, List.getElem?_eq_none h]

lemma rollingMean_getD (w : ℕ) (xs : List ℚ) (i : ℕ) (h : i < xs.length) :
    (rollingMean w xs).getD i none =
      if w ≤ i + 1 then some ((((xs.take (i + 1)).drop (i + 1 - w)).sum) / w)
      else none := by
  simp [rollingMean, List.getD_eq_getElem?_getD, List.getElem?_map, List.getElem?_range h]

lemma calculate_rsi_getD (p : ℕ) (close : List ℚ) (i : ℕ) (h : i < close.length) :
    (calculate_rsi p close).getD i none =
      rsiOfRs (fdiv ((avgGainSeries p close).getD i none)
                    ((avgLossSeries p close).getD i none)) := by
  have hg : i < (avgGainSeries p close).length := by rw [length_avgGainSeries]; exact h
  have hl : i < (avgLossSeries p close).length := by rw [length_avgLossSeries]; exact h
  have hg' := List.getElem?_eq_getElem hg
  have hl' := List.getElem?_eq_getElem hl
  simp [calculate_rsi, List.getD_eq_getElem?_getD, List.getElem?_map,
    List.getElem?_zipWith, hg', hl']

/-! ### The adjusted exponential moving average -/

lemma ewmAux_getD (a : ℚ) (xs : List ℚ) :
    ∀ (i : ℕ) (num den : ℚ), i < xs.length →
      (ewmAux a num den xs).getD i 0 =
        ((1 - a) ^ (i + 1) * num +
          ∑ k ∈ Finset.range (i + 1), (1 - a) ^ (i - k) * xs.getD k 0) /
        ((1 - a) ^ (i + 1) * den + ∑ k ∈ Finset.range (i + 1), (1 - a) ^ k) := by
  induction xs with
  | nil => intro i num den h; exact absurd h (by simp)
  | cons x t ih =>
    intro i num den h
    cases i with
    | zero =>
      simp [ewmAux, Finset.sum_range_one]
      ring_nf
    | succ i =>
      have hi : i < t.length := by simpa using h
      have hnum :
          (1 - a) ^ (i + 1 + 1) * num +
            ∑ k ∈ Finset.range (i + 1 + 1), (1 - a) ^ (i + 1 - k) * (x :: t).getD k 0 =
          (1 - a) ^ (i + 1) * (x + (1 - a) * num) +
            ∑ k ∈ Finset.range (i + 1), (1 - a) ^ (i - k) * t.getD k 0 := by
        rw [Finset.sum_range_succ']
        simp only [List.getD_cons_succ, List.getD_cons_zero, Nat.succ_sub_succ, Nat.sub_zero]
        ring
      have hden :
          (1 - a) ^ (i + 1 + 1) * den + ∑ k ∈ Finset.range (i + 1 + 1), (1 - a) ^ k =
          (1 - a) ^ (i + 1) * (1 + (1 - a) * den) +
            ∑ k ∈ Finset.range (i + 1), (1 - a) ^ k := by
        rw [Finset.sum_range_succ]
        ring
      calc (ewmAux a num den (x :: t)).getD (i + 1) 0
          = (ewmAux a (x + (1 - a) * num) (1 + (1 - a) * den) t).getD i 0 := by
            simp [ewmAux]
        _ = ((1 - a) ^ (i + 1) * (x + (1 - a) * num) +
              ∑ k ∈ Finset.range (i + 1), (1 - a) ^ (i - k) * t.getD k 0) /
            ((1 - a) ^ (i + 1) * (1 + (1 - a) * den) +
              ∑ k ∈ Finset.range (i + 1), (1 - a) ^ k) := ih i _ _ hi
        _ = _ := by rw [hnum, hden]

/-- C1, counterexample.  The EMAs used by `calculate_macd` do NOT satisfy the
anchored recursion `EMA[i] = α·price[i] + (1−α)·EMA[i−1]`: with the default
fast span 12 and prices `[0, 1]`, the pandas-default adjusted EMA gives
`13/24` at index 1 while the recursion gives `2/13`. -/
theorem ewm_anchored_recursion_cex :
    (ewmMean 12 [0, 1]).getD 1 0 ≠
      ewmAlpha 12 * 1 + (1 - ewmAlpha 12) * ((ewmMean 12 [0, 1]).getD 0 0) := by
  norm_num [ewmMean, ewmAux, ewmAlpha]

/-- C1, amended.  For every span and every index `i` in range, the EMA that
`calculate_macd` uses (pandas `ewm(span).mean()`, default `adjust=True`)
anchors at `EMA[0] = price[0]` and equals the adjusted weighted mean
`(Σ_{k≤i} (1−α)^(i−k)·price[k]) / (Σ_{k≤i} (1−α)^k)` with `α = 2/(span+1)`,
rather than the anchored simple recursion. -/
theorem ewm_adjusted_weighted_form (span : ℕ) (xs : List ℚ) (i : ℕ) (h : i < xs.length) :
    (ewmMean span xs).getD i 0 =
      (∑ k ∈ Finset.range (i + 1), (1 - ewmAlpha span) ^ (i - k) * xs.getD k 0) /
      (∑ k ∈ Finset.range (i + 1), (1 - ewmAlpha span) ^ k) := by
  have := ewmAux_getD (ewmAlpha span) xs i 0 0 h
  simpa [ewmMean] using this

/-- C1, witness for `ewm_adjusted_weighted_form` at span 12, prices `[0, 1]`,
index 1. -/
theorem ewm_adjusted_weighted_form_witness :
    (ewmMean 12 [0, 1]).getD 1 0 =
      (∑ k ∈ Finset.range 2, (1 - ewmAlpha 12) ^ (1 - k) * ([0, 1] : List ℚ).getD k 0) /
      (∑ k ∈ Finset.range 2, (1 - ewmAlpha 12) ^ k) :=
  ewm_adjusted_weighted_form 12 [0, 1] 1 (by norm_num)

/-! ### MACD pipeline lemmas -/

lemma ewmMean_cons (s : ℕ) (x : ℚ) (t : List ℚ) :
    ewmMean s (x :: t) = x :: ewmAux (ewmAlpha s) x 1 t := by
  simp [ewmMean, ewmAux]

lemma zipWith_sub_self (l : List ℚ) :
    List.zipWith (· - ·) l l = List.replicate l.length 0 := by
  induction l with
  | nil => rfl
  | cons x t ih => simp [List.replicate_succ, ih]

lemma ewmAux_replicate_zero (a : ℚ) (n : ℕ) :
    ∀ den : ℚ, ewmAux a 0 den (List.replicate n 0) = List.replicate n 0 := by
  induction n with
  | zero => intro den; rfl
  | succ n ih => intro den; simp [List.replicate_succ, ewmAux, ih]

/-- C10.  On a non-empty Series all three `calculate_macd` outputs are
everywhere-defined series of the input's length, and at index 0 the fast and
slow EMAs both equal `price[0]`, so MACD line, signal line and histogram all
start at 0. -/
theorem macd_defined_head_zero (fast slow sigp : ℕ) (x : ℚ) (t : List ℚ) :
    ((calculate_macd (x :: t) fast slow sigp).1.length = (x :: t).length ∧
     (calculate_macd (x :: t) fast slow sigp).2.1.length = (x :: t).length ∧
     (calculate_macd (x :: t) fast slow sigp).2.2.length = (x :: t).length) ∧
    (ewmMean fast (x :: t)).getD 0 0 = x ∧
    (ewmMean slow (x :: t)).getD 0 0 = x ∧
    (calculate_macd (x :: t) fast slow sigp).1.getD 0 0 = 0 ∧
    (calculate_macd (x :: t) fast slow sigp).2.1.getD 0 0 = 0 ∧
    (calculate_macd (x :: t) fast slow sigp).2.2.getD 0 0 = 0 := by
  simp [calculate_macd, ewmMean_cons, List.length_zipWith, length_ewmAux]

/-- C6, counterexample.  `calculate_macd` performs no configuration
validation: called with `fast = slow = 26` (violating `fast < slow`) it does
not fault but returns fully defined output (all-zero MACD line, signal line
and histogram). -/
theorem macd_accepts_equal_spans_cex :
    calculate_macd [1, 2, 3] 26 26 9 = ([0, 0, 0], [0, 0, 0], [0, 0, 0]) := by
  norm_num [calculate_macd, ewmMean, ewmAux, ewmAlpha]

lemma calculate_macd_equal_spans (span sigp : ℕ) (close : List ℚ) :
    calculate_macd close span span sigp =
      (List.replicate close.length 0, List.replicate close.length 0,
       List.replicate close.length 0) := by
  have hz : List.zipWith (· - ·) (ewmMean span close) (ewmMean span close) =
      List.replicate close.length 0 := by
    rw [zipWith_sub_self, length_ewmMean]
  simp [calculate_macd, hz, ewmMean, ewmAux_replicate_zero, zipWith_sub_self,
    List.length_replicate, length_ewmAux]

lemma calculate_macd_lengths (fast slow sigp : ℕ) (close : List ℚ) :
    (calculate_macd close fast slow sigp).1.length = close.length ∧
    (calculate_macd close fast slow sigp).2.1.length = close.length ∧
    (calculate_macd close fast slow sigp).2.2.length = close.length := by
  simp [calculate_macd, List.length_zipWith, length_ewmMean, length_ewmAux]

/-- C6, amended.  `calculate_macd` performs no `fast < slow` precondition
check: for every configuration with `fastPeriod ≥ slowPeriod` (an invalid
configuration) and every Series, the call proceeds and returns three
everywhere-defined indicator series of the input's length instead of
rejecting, and in the boundary case `fastPeriod = slowPeriod` the MACD
line, signal line and histogram are identically zero. -/
theorem macd_invalid_config_returns_output (fast slow sigp : ℕ) (close : List ℚ)
    (h : slow ≤ fast) :
    (calculate_macd close fast slow sigp).1.length = close.length ∧
    (calculate_macd close fast slow sigp).2.1.length = close.length ∧
    (calculate_macd close fast slow sigp).2.2.length = close.length ∧
    (fast = slow →
      calculate_macd close fast slow sigp =
        (List.replicate close.length 0, List.replicate close.length 0,
         List.replicate close.length 0)) := by
  obtain ⟨h1, h2, h3⟩ := calculate_macd_lengths fast slow sigp close
  refine ⟨h1, h2, h3, fun heq => ?_⟩
  subst heq
  exact calculate_macd_equal_spans fast sigp close

/-- C6, witness for `macd_invalid_config_returns_output` at the invalid
configuration `fast = 27 ≥ slow = 26` on the Series `[1, 2, 3]`. -/
theorem macd_invalid_config_returns_output_witness :
    (calculate_macd [1, 2, 3] 27 26 9).1.length = ([1, 2, 3] : List ℚ).length ∧
    (calculate_macd [1, 2, 3] 27 26 9).2.1.length = ([1, 2, 3] : List ℚ).length ∧
    (calculate_macd [1, 2, 3] 27 26 9).2.2.length = ([1, 2, 3] : List ℚ).length ∧
    (27 = 26 →
      calculate_macd [1, 2, 3] 27 26 9 =
        (List.replicate ([1, 2, 3] : List ℚ).length 0,
         List.replicate ([1, 2, 3] : List ℚ).length 0,
         List.replicate ([1, 2, 3] : List ℚ).length 0)) :=
  macd_invalid_config_returns_output 27 26 9 [1, 2, 3] (by norm_num)

/-- C8.  An empty Series produces empty outputs from every engine, detector
and the combiner, with no fault. -/
theorem empty_series_empty_outputs :
    (∀ fast slow sigp : ℕ, calculate_macd [] fast slow sigp = ([], [], [])) ∧
    (∀ period : ℕ, calculate_rsi period [] = []) ∧
    detect_macd_signals [] [] = ([], []) ∧
    detect_rsi_signals [] = ([], []) ∧
    (∀ (rs : List ℤ) (tol : ℤ), combineSignals [] rs tol = []) ∧
    (∀ (ms : List ℤ) (tol : ℤ), combineSignals ms [] tol = []) := by
  refine ⟨fun _ _ _ => rfl, fun _ => rfl, rfl, rfl, fun _ _ => rfl, fun ms tol => ?_⟩
  induction ms with
  | nil => rfl
  | cons m ms ih => simp [combineSignals] at ih ⊢

/-! ### RSI warm-up and the avg-loss-zero edge case -/

/-- C2, counterexample.  With `period = 2` and prices `[1, 2, 3]`, the RSI is
already defined at index `1 = period − 1`, because `diff()`'s NaN at index 0
is replaced by 0 by the `where` filters, so the rolling averages only need
`period − 1` genuine deltas.  The claim says indices `0 … period−1` are all
undefined. -/
theorem rsi_defined_at_period_minus_one_cex :
    (calculate_rsi 2 [1, 2, 3]).getD 1 none = some 100 := by
  norm_num [calculate_rsi, avgGainSeries, avgLossSeries, diffList, rollingMean,
    gainOf, lossOf, fdiv, rsiOfRs, List.range_succ]

lemma avgGainSeries_getD_none (period : ℕ) (close : List ℚ) (j : ℕ)
    (hjl : j < close.length) (hj : j + 1 < period) :
    (avgGainSeries period close).getD j none = none := by
  rw [avgGainSeries,
    rollingMean_getD _ _ _ (by simpa [length_diffList] using hjl)]
  have h : ¬ period ≤ j + 1 := by omega
  simp [h]

lemma rsi_getD_none_of_avgGain_none (period : ℕ) (close : List ℚ) (j : ℕ)
    (hjl : j < close.length)
    (hg : (avgGainSeries period close).getD j none = none) :
    (calculate_rsi period close).getD j none = none := by
  rw [calculate_rsi_getD period close j hjl, hg]
  rcases (avgLossSeries period close).getD j none with _ | v <;> simp [fdiv, rsiOfRs]

/-- C2, amended.  For every positive period and every Series, the RSI is
undefined at the first `period − 1` indices (every `i` with `i + 1 <
period`), and index 0 is always undefined; the first defined value, if any,
occurs at index `period − 1` or later. -/
theorem rsi_warmup (period : ℕ) (close : List ℚ) (i : ℕ) (hp : 1 ≤ period) :
    (i + 1 < period → (calculate_rsi period close).getD i none = none) ∧
    (calculate_rsi period close).getD 0 none = none := by
  have hwarm : ∀ j : ℕ, j + 1 < period → (calculate_rsi period close).getD j none = none := by
    intro j hj
    rcases Nat.lt_or_ge j close.length with hjl | hjl
    · exact rsi_getD_none_of_avgGain_none period close j hjl
        (avgGainSeries_getD_none period close j hjl hj)
    · exact getD_of_length_le _ _ _ (by rwa [length_calculate_rsi])
  refine ⟨hwarm i, ?_⟩
  cases close with
  | nil =>
    exact getD_of_length_le _ _ _ (by simp [length_calculate_rsi])
  | cons c t =>
    have h0 : 0 < (c :: t).length := by simp
    by_cases hp2 : 2 ≤ period
    · exact hwarm 0 (by omega)
    · have hp1 : period = 1 := by omega
      subst hp1
      rw [calculate_rsi_getD 1 (c :: t) 0 h0]
      have hg : (avgGainSeries 1 (c :: t)).getD 0 none = some 0 := by
        rw [avgGainSeries, rollingMean_getD _ _ _ (by simp [length_diffList])]
        simp [diffList, gainOf]
      have hl : (avgLossSeries 1 (c :: t)).getD 0 none = some 0 := by
        rw [avgLossSeries, rollingMean_getD _ _ _ (by simp [length_diffList])]
        simp [diffList, lossOf]
      rw [hg, hl]
      simp [fdiv, rsiOfRs]

/-- C2, witness for `rsi_warmup` at period 2, prices `[1, 2, 3]`, index 0. -/
theorem rsi_warmup_witness :
    (0 + 1 < 2 → (calculate_rsi 2 [1, 2, 3]).getD 0 none = none) ∧
    (calculate_rsi 2 [1, 2, 3]).getD 0 none = none :=
  rsi_warmup 2 [1, 2, 3] 0 (by norm_num)

/-- C3, counterexample.  On the flat Series `[5, 5, 5]` with period 2 the
rolling averages are available at index 1 with `avgLoss = 0`, yet the RSI
there is undefined (0/0 gives NaN), not 100 — there is no guarded branch;
the 100 in the gains-only case arises from infinity propagating through
`100 - 100/(1 + rs)`. -/
theorem rsi_avgLoss_zero_not_guarded_cex :
    (avgLossSeries 2 [5, 5, 5]).getD 1 none = some 0 ∧
    (calculate_rsi 2 [5, 5, 5]).getD 1 none = none := by
  constructor <;>
    norm_num [calculate_rsi, avgGainSeries, avgLossSeries, diffList,
      rollingMean, gainOf, lossOf, fdiv, rsiOfRs, List.range_succ]

/-- C3, amended.  Whenever the rolling averages are available and
`avgLoss[i] = 0`, the unguarded float computation `100 - 100/(1 + g/0)`
yields `RSI[i] = 100` if `avgGain[i] > 0` (the quotient is +∞) and leaves
`RSI[i]` undefined (NaN) if `avgGain[i] = 0`; no division fault occurs, but
the 100 comes from IEEE infinity propagation, not an explicit branch. -/
theorem rsi_avgLoss_zero_value (period : ℕ) (close : List ℚ) (i : ℕ) (g : ℚ)
    (hg : (avgGainSeries period close).getD i none = some g)
    (hl : (avgLossSeries period close).getD i none = some 0) :
    (calculate_rsi period close).getD i none = if g = 0 then none else some 100 := by
  have hi : i < close.length := by
    by_contra hcon
    push_neg at hcon
    rw [getD_of_length_le _ _ _ (by rwa [length_avgGainSeries])] at hg
    exact Option.noConfusion hg
  rw [calculate_rsi_getD _ _ _ hi, hg, hl]
  by_cases hz : g = 0 <;> simp [fdiv, rsiOfRs, hz]

/-- C3, witness for `rsi_avgLoss_zero_value` at period 2, prices `[1, 2, 3]`,
index 1, where `avgGain = 1/2` and `avgLoss = 0`. -/
theorem rsi_avgLoss_zero_value_witness :
    (calculate_rsi 2 [1, 2, 3]).getD 1 none = if (1 / 2 : ℚ) = 0 then none else some 100 :=
  rsi_avgLoss_zero_value 2 [1, 2, 3] 1 (1 / 2)
    (by norm_num [avgGainSeries, diffList, rollingMean, gainOf, List.range_succ])
    (by norm_num [avgLossSeries, diffList, rollingMean, lossOf, List.range_succ])

/-! ### Signal detectors -/

lemma mem_range_filter {n : ℕ} {p : ℕ → Bool} {i : ℕ} :
    i ∈ (List.range n).filter p ↔ i < n ∧ p i = true := by
  simp [List.mem_filter, List.mem_range]

lemma ole_none_left (b : Option ℚ) : ole none b = false := by cases b <;> rfl

lemma ole_none_right (a : Option ℚ) : ole a none = false := by cases a <;> rfl

lemma olt_none_left (b : Option ℚ) : olt none b = false := by cases b <;> rfl

lemma olt_none_right (a : Option ℚ) : olt a none = false := by cases a <;> rfl

lemma macdBuyAt_eq {m s : List (Option ℚ)} {i : ℕ} {a b c d : ℚ}
    (ha : m.getD (i - 1) none = some a) (hb : s.getD (i - 1) none = some b)
    (hc : m.getD i none = some c) (hd : s.getD i none = some d) :
    macdBuyAt m s i = (decide (a ≤ b) && decide (d < c)) := by
  unfold macdBuyAt
  rw [ha, hb, hc, hd]
  rfl

lemma macdSellAt_eq {m s : List (Option ℚ)} {i : ℕ} {a b c d : ℚ}
    (ha : m.getD (i - 1) none = some a) (hb : s.getD (i - 1) none = some b)
    (hc : m.getD i none = some c) (hd : s.getD i none = some d) :
    macdSellAt m s i = (decide (b ≤ a) && decide (c < d)) := by
  unfold macdSellAt
  rw [ha, hb, hc, hd]
  rfl

lemma rsiBuyAt_eq {r : List (Option ℚ)} {i : ℕ} {p c : ℚ}
    (hp : r.getD (i - 1) none = some p) (hc : r.getD i none = some c) :
    rsiBuyAt r i = (decide (p ≤ 30) && decide (30 < c)) := by
  unfold rsiBuyAt
  rw [hp, hc]

lemma rsiSellAt_eq {r : List (Option ℚ)} {i : ℕ} {p c : ℚ}
    (hp : r.getD (i - 1) none = some p) (hc : r.getD i none = some c) :
    rsiSellAt r i = (decide (70 ≤ p) && decide (c < 70)) := by
  unfold rsiSellAt
  rw [hp, hc]

/-- C4.  At every index `i ≥ 1` where both neighbouring values are defined,
`detect_macd_signals` emits Buy exactly on `macd[i−1] ≤ signal[i−1]` and
`macd[i] > signal[i]`, Sell exactly on `macd[i−1] ≥ signal[i−1]` and
`macd[i] < signal[i]`; `detect_rsi_signals` emits Buy exactly on
`rsi[i−1] ≤ 30 < rsi[i]`, Sell exactly on `rsi[i−1] ≥ 70 > rsi[i]`.  The
post-crossing comparison is strict, so equality there never emits. -/
theorem detect_crossovers_iff :
    (∀ (m s : List (Option ℚ)) (i : ℕ) (a b c d : ℚ),
      1 ≤ i →
      m.getD (i - 1) none = some a → s.getD (i - 1) none = some b →
      m.getD i none = some c → s.getD i none = some d →
      ((i ∈ (detect_macd_signals m s).1 ↔ i < m.length ∧ a ≤ b ∧ d < c) ∧
       (i ∈ (detect_macd_signals m s).2 ↔ i < m.length ∧ b ≤ a ∧ c < d))) ∧
    (∀ (r : List (Option ℚ)) (i : ℕ) (p c : ℚ),
      1 ≤ i →
      r.getD (i - 1) none = some p → r.getD i none = some c →
      ((i ∈ (detect_rsi_signals r).1 ↔ i < r.length ∧ p ≤ 30 ∧ 30 < c) ∧
       (i ∈ (detect_rsi_signals r).2 ↔ i < r.length ∧ 70 ≤ p ∧ c < 70))) := by
  constructor
  · intro m s i a b c d h1 ha hb hc hd
    constructor
    · show i ∈ (List.range m.length).filter (fun j => decide (1 ≤ j) && macdBuyAt m s j) ↔ _
      rw [mem_range_filter]
      simp [macdBuyAt_eq ha hb hc hd, h1]
    · show i ∈ (List.range m.length).filter
          (fun j => decide (1 ≤ j) && !macdBuyAt m s j && macdSellAt m s j) ↔ _
      rw [mem_range_filter]
      constructor
      · rintro ⟨hL, hbool⟩
        rw [macdBuyAt_eq ha hb hc hd, macdSellAt_eq ha hb hc hd] at hbool
        simp only [Bool.and_eq_true, decide_eq_true_eq] at hbool
        exact ⟨hL, hbool.2⟩
      · rintro ⟨hL, hba, hcd⟩
        refine ⟨hL, ?_⟩
        have hdc : decide (d < c) = false := decide_eq_false (lt_asymm hcd)
        rw [macdBuyAt_eq ha hb hc hd, macdSellAt_eq ha hb hc hd]
        simp [h1, hba, hcd, hdc]
  · intro r i p c h1 hp hc
    constructor
    · show i ∈ (List.range r.length).filter (fun j => decide (1 ≤ j) && rsiBuyAt r j) ↔ _
      rw [mem_range_filter]
      simp [rsiBuyAt_eq hp hc, h1]
    · show i ∈ (List.range r.length).filter
          (fun j => decide (1 ≤ j) && !rsiBuyAt r j && rsiSellAt r j) ↔ _
      rw [mem_range_filter]
      constructor
      · rintro ⟨hL, hbool⟩
        rw [rsiBuyAt_eq hp hc, rsiSellAt_eq hp hc] at hbool
        simp only [Bool.and_eq_true, decide_eq_true_eq] at hbool
        exact ⟨hL, hbool.2⟩
      · rintro ⟨hL, hba, hcd⟩
        refine ⟨hL, ?_⟩
        have hp30 : decide (p ≤ 30) = false := decide_eq_false (by linarith)
        rw [rsiBuyAt_eq hp hc, rsiSellAt_eq hp hc]
        simp [h1, hba, hcd, hp30]

/-- C4, witness: MACD line `[0, 2]` crosses above signal line `[1, 1]` at
index 1, which `detect_crossovers_iff` certifies as a Buy. -/
theorem detect_crossovers_iff_witness :
    1 ∈ (detect_macd_signals [some 0, some 2] [some 1, some 1]).1 :=
  ((detect_crossovers_iff.1 [some 0, some 2] [some 1, some 1] 1 0 1 2 1
      (by norm_num) rfl rfl rfl rfl).1).mpr
    (by norm_num)

/-- C7.  Neither detector emits an event at an index where the value at
`i−1` or `i` is undefined (NaN): the unguarded MACD comparisons are all
False on NaN, and the RSI detector's `notna` guard skips the index. -/
theorem detect_skip_undefined :
    (∀ (m s : List (Option ℚ)) (i : ℕ),
      (m.getD (i - 1) none = none ∨ s.getD (i - 1) none = none ∨
       m.getD i none = none ∨ s.getD i none = none) →
      i ∉ (detect_macd_signals m s).1 ∧ i ∉ (detect_macd_signals m s).2) ∧
    (∀ (r : List (Option ℚ)) (i : ℕ),
      (r.getD (i - 1) none = none ∨ r.getD i none = none) →
      i ∉ (detect_rsi_signals r).1 ∧ i ∉ (detect_rsi_signals r).2) := by
  constructor
  · intro m s i h
    have hb : macdBuyAt m s i = false := by
      unfold macdBuyAt
      rcases h with h | h | h | h
      · rw [h, ole_none_left]; rfl
      · rw [h, ole_none_right]; rfl
      · rw [h, olt_none_right]; simp
      · rw [h, olt_none_left]; simp
    have hs : macdSellAt m s i = false := by
      unfold macdSellAt
      rcases h with h | h | h | h
      · rw [h, ole_none_right]; rfl
      · rw [h, ole_none_left]; rfl
      · rw [h, olt_none_left]; simp
      · rw [h, olt_none_right]; simp
    constructor
    · show i ∉ (List.range m.length).filter (fun j => decide (1 ≤ j) && macdBuyAt m s j)
      simp [mem_range_filter, hb]
    · show i ∉ (List.range m.length).filter
          (fun j => decide (1 ≤ j) && !macdBuyAt m s j && macdSellAt m s j)
      simp [mem_range_filter, hs]
  · intro r i h
    have hb : rsiBuyAt r i = false := by
      unfold rsiBuyAt
      rcases h with h | h
      · rw [h]
      · rw [h]; rcases r.getD (i - 1) none with _ | v <;> rfl
    have hs : rsiSellAt r i = false := by
      unfold rsiSellAt
      rcases h with h | h
      · rw [h]
      · rw [h]; rcases r.getD (i - 1) none with _ | v <;> rfl
    constructor
    · show i ∉ (List.range r.length).filter (fun j => decide (1 ≤ j) && rsiBuyAt r j)
      simp [mem_range_filter, hb]
    · show i ∉ (List.range r.length).filter
          (fun j => decide (1 ≤ j) && !rsiBuyAt r j && rsiSellAt r j)
      simp [mem_range_filter, hs]

/-- C7, witness: with an undefined value at index 0, index 1 is skipped by
the MACD detector. -/
theorem detect_skip_undefined_witness :
    1 ∉ (detect_macd_signals [none, some 1] [some 0, some 0]).1 ∧
    1 ∉ (detect_macd_signals [none, some 1] [some 0, some 0]).2 :=
  detect_skip_undefined.1 [none, some 1] [some 0, some 0] 1 (Or.inl rfl)

/-! ### Signal combiner -/

lemma count_map_const {α : Type} (l : List α) (m x : ℤ) :
    ((l.map (fun _ => m)).count x) = if m = x then l.length else 0 := by
  simp [List.count_replicate]

/-- C5.  The combiner is an all-pairs match: every occurrence of a MACD
event date `x` contributes one combined event dated `x` for EVERY same-kind
RSI event date within `tol` days (so `k` matches yield `k` entries, with no
deduplication), blocks appear in MACD scan order, and on the spec's fixture
(MACD Buy day 10, RSI Buy day 11) tolerance 2 gives exactly one event at
day 10 while tolerance 0 gives none. -/
theorem combine_signals_all_pairs :
    (∀ (ms rs : List ℤ) (tol x : ℤ),
      (combineSignals ms rs tol).count x =
        ms.count x * rs.countP (fun r => decide (|x - r| ≤ tol))) ∧
    (∀ (m : ℤ) (ms rs : List ℤ) (tol : ℤ),
      combineSignals (m :: ms) rs tol =
        (rs.filter (fun r => decide (|m - r| ≤ tol))).map (fun _ => m) ++
          combineSignals ms rs tol) ∧
    combineSignals [10] [11] 2 = [10] ∧
    combineSignals [10] [11] 0 = [] := by
  refine ⟨?_, fun _ _ _ _ => rfl, by decide, by decide⟩
  intro ms rs tol x
  induction ms with
  | nil => simp [combineSignals]
  | cons m ms ih =>
    have hcons : combineSignals (m :: ms) rs tol =
        (rs.filter (fun r => decide (|m - r| ≤ tol))).map (fun _ => m) ++
          combineSignals ms rs tol := rfl
    rw [hcons, List.count_append, ih, count_map_const, List.count_cons]
    by_cases h : m = x
    · subst h
      simp [List.countP_eq_length_filter]
      ring
    · simp [h]

/-! ### Monotone price series -/

lemma diffList_mem_pos (xs : List ℚ) (hc : List.Chain' (· < ·) xs) :
    ∀ o ∈ diffList xs, o = none ∨ ∃ d, o = some d ∧ 0 < d := by
  induction xs with
  | nil => intro o ho; simp [diffList] at ho
  | cons x t ih =>
    cases t with
    | nil =>
      intro o ho
      simp [diffList] at ho
      exact Or.inl ho
    | cons y t' =>
      rw [List.chain'_cons] at hc
      obtain ⟨hxy, hc'⟩ := hc
      intro o ho
      have hd : diffList (x :: y :: t') =
          none :: some (y - x) ::
            List.zipWith (fun prev cur => some (cur - prev)) (y :: t') t' := rfl
      rw [hd] at ho
      simp only [List.mem_cons] at ho
      rcases ho with rfl | rfl | ho
      · exact Or.inl rfl
      · exact Or.inr ⟨y - x, rfl, by linarith⟩
      · exact ih hc' o (List.mem_cons_of_mem _ ho)

lemma diffList_mem_neg (xs : List ℚ) (hc : List.Chain' (· > ·) xs) :
    ∀ o ∈ diffList xs, o = none ∨ ∃ d, o = some d ∧ d < 0 := by
  induction xs with
  | nil => intro o ho; simp [diffList] at ho
  | cons x t ih =>
    cases t with
    | nil =>
      intro o ho
      simp [diffList] at ho
      exact Or.inl ho
    | cons y t' =>
      rw [List.chain'_cons] at hc
      obtain ⟨hxy, hc'⟩ := hc
      intro o ho
      have hd : diffList (x :: y :: t') =
          none :: some (y - x) ::
            List.zipWith (fun prev cur => some (cur - prev)) (y :: t') t' := rfl
      rw [hd] at ho
      simp only [List.mem_cons] at ho
      rcases ho with rfl | rfl | ho
      · exact Or.inl rfl
      · exact Or.inr ⟨y - x, rfl, by linarith⟩
      · exact ih hc' o (List.mem_cons_of_mem _ ho)

lemma loss_zero_of_inc (xs : List ℚ) (hc : List.Chain' (· < ·) xs) :
    ∀ q ∈ (diffList xs).map lossOf, q = 0 := by
  intro q hq
  rw [List.mem_map] at hq
  obtain ⟨o, ho, rfl⟩ := hq
  rcases diffList_mem_pos xs hc o ho with rfl | ⟨d, rfl, hd⟩
  · rfl
  · simp [lossOf, (by linarith : ¬ d < 0)]

lemma gain_zero_of_dec (xs : List ℚ) (hc : List.Chain' (· > ·) xs) :
    ∀ q ∈ (diffList xs).map gainOf, q = 0 := by
  intro q hq
  rw [List.mem_map] at hq
  obtain ⟨o, ho, rfl⟩ := hq
  rcases diffList_mem_neg xs hc o ho with rfl | ⟨d, rfl, hd⟩
  · rfl
  · simp [gainOf, (by linarith : ¬ 0 < d)]

lemma rollingMean_getD_zero_list (w : ℕ) (xs : List ℚ) (hz : ∀ q ∈ xs, q = 0) (i : ℕ) :
    (rollingMean w xs).getD i none = none ∨ (rollingMean w xs).getD i none = some 0 := by
  rcases Nat.lt_or_ge i xs.length with hi | hi
  · rw [rollingMean_getD w xs i hi]
    by_cases hw : w ≤ i + 1
    · right
      have hsum : (((xs.take (i + 1)).drop (i + 1 - w)).sum) = 0 :=
        List.sum_eq_zero fun q hq =>
          hz q (List.mem_of_mem_take (List.mem_of_mem_drop hq))
      simp [hw, hsum]
    · left
      simp [hw]
  · exact Or.inl (getD_of_length_le _ _ _ (by rwa [length_rollingMean]))

lemma rsi_vals_inc (p : ℕ) (close : List ℚ) (hc : List.Chain' (· < ·) close) (i : ℕ) :
    (calculate_rsi p close).getD i none = none ∨
    (calculate_rsi p close).getD i none = some 100 := by
  rcases Nat.lt_or_ge i close.length with hi | hi
  · rw [calculate_rsi_getD p close i hi]
    rcases rollingMean_getD_zero_list p ((diffList close).map lossOf)
        (loss_zero_of_inc close hc) i with hl | hl
    · have hl' : (avgLossSeries p close).getD i none = none := hl
      rw [hl']
      rcases (avgGainSeries p close).getD i none with _ | gv <;> simp [fdiv, rsiOfRs]
    · have hl' : (avgLossSeries p close).getD i none = some 0 := hl
      rw [hl']
      rcases (avgGainSeries p close).getD i none with _ | gv
      · simp [fdiv, rsiOfRs]
      · by_cases hg : gv = 0 <;> simp [fdiv, rsiOfRs, hg]
  · exact Or.inl (getD_of_length_le _ _ _ (by rwa [length_calculate_rsi]))

lemma rsi_vals_dec (p : ℕ) (close : List ℚ) (hc : List.Chain' (· > ·) close) (i : ℕ) :
    (calculate_rsi p close).getD i none = none ∨
    (calculate_rsi p close).getD i none = some 0 := by
  rcases Nat.lt_or_ge i close.length with hi | hi
  · rw [calculate_rsi_getD p close i hi]
    rcases rollingMean_getD_zero_list p ((diffList close).map gainOf)
        (gain_zero_of_dec close hc) i with hg | hg
    · have hg' : (avgGainSeries p close).getD i none = none := hg
      rw [hg']
      rcases (avgLossSeries p close).getD i none with _ | lv <;> simp [fdiv, rsiOfRs]
    · have hg' : (avgGainSeries p close).getD i none = some 0 := hg
      rw [hg']
      rcases (avgLossSeries p close).getD i none with _ | lv
      · simp [fdiv, rsiOfRs]
      · by_cases hl0 : lv = 0
        · simp [fdiv, rsiOfRs, hl0]
        · right
          simp [fdiv, rsiOfRs, hl0]
  · exact Or.inl (getD_of_length_le _ _ _ (by rwa [length_calculate_rsi]))

lemma no_rsi_sell_of_vals_100 (r : List (Option ℚ))
    (hv : ∀ i, r.getD i none = none ∨ r.getD i none = some 100) :
    (detect_rsi_signals r).2 = [] := by
  show (List.range r.length).filter _ = []
  rw [List.filter_eq_nil_iff]
  intro j hj
  have hs : rsiSellAt r j = false := by
    unfold rsiSellAt
    rcases hv j with h | h
    · rw [h]; rcases r.getD (j - 1) none with _ | v <;> rfl
    · rw [h]
      rcases r.getD (j - 1) none with _ | v
      · rfl
      · have h70 : ¬ ((100 : ℚ) < 70) := by norm_num
        simp [h70]
  simp [hs]

lemma no_rsi_buy_of_vals_0 (r : List (Option ℚ))
    (hv : ∀ i, r.getD i none = none ∨ r.getD i none = some 0) :
    (detect_rsi_signals r).1 = [] := by
  show (List.range r.length).filter _ = []
  rw [List.filter_eq_nil_iff]
  intro j hj
  have hb : rsiBuyAt r j = false := by
    unfold rsiBuyAt
    rcases hv j with h | h
    · rw [h]; rcases r.getD (j - 1) none with _ | v <;> rfl
    · rw [h]
      rcases r.getD (j - 1) none with _ | v
      · rfl
      · have h30 : ¬ ((30 : ℚ) < 0) := by norm_num
        simp [h30]
  simp [hb]

/-- C9.  On a strictly increasing price Series every defined RSI value is
100, so the RSI detector never emits a Sell; on a strictly decreasing
Series every defined RSI value is 0, so it never emits a Buy. -/
theorem rsi_monotone_no_counter_signals (period : ℕ) (close : List ℚ) :
    (List.Chain' (· < ·) close →
      (detect_rsi_signals (calculate_rsi period close)).2 = []) ∧
    (List.Chain' (· > ·) close →
      (detect_rsi_signals (calculate_rsi period close)).1 = []) :=
  ⟨fun hc => no_rsi_sell_of_vals_100 _ (rsi_vals_inc period close hc),
   fun hc => no_rsi_buy_of_vals_0 _ (rsi_vals_dec period close hc)⟩

/-- C9, witness: the strictly increasing Series `[1, 2, 3]` yields no RSI
Sell events with period 2. -/
theorem rsi_monotone_no_counter_signals_witness :
    (detect_rsi_signals (calculate_rsi 2 [1, 2, 3])).2 = [] :=
  (rsi_monotone_no_counter_signals 2 [1, 2, 3]).1
    (by norm_num [List.chain'_cons, List.chain'_singleton])

end StockIndicator
